import Mathlib

/-!
Verification development for the prh language server's validation-cache and
command-dispatch core (the `Handler` class).

The embedding models the handler as a pure state machine: every event handler
takes the current `Handler` state plus an `Env` describing the external
collaborators (file system, rule-file resolution, the YAML engine factory,
URI parsing, and the open-document store), and returns the new state together
with the list of outgoing protocol effects.  JavaScript truthiness on strings
and optional fields is modelled explicitly (`jsOr`, `jsTruthyHead`); machine
integers do not overflow in the source's ranges, so versions and offsets are
`Nat`.  `console.log` payloads that the source builds with `JSON.stringify`
are abstracted by deterministic rendering functions, since no behaviour
depends on their exact text.
-/

/-- LSP position (line/character), as produced by `TextDocument.positionAt`. -/
structure Position where
  line : Nat
  character : Nat
deriving DecidableEq, Repr

/-- LSP range; the source's `end` field is renamed `endPos` (`end` is a Lean keyword). -/
structure Range where
  start : Position
  endPos : Position
deriving DecidableEq, Repr

/-- LSP text edit. -/
structure TextEdit where
  range : Range
  newText : String
deriving DecidableEq, Repr

/-- Diagnostic severity; the handler only ever emits `warning`. -/
inductive DiagnosticSeverity where
  | error
  | warning
  | information
  | hint
deriving DecidableEq, Repr

/-- LSP diagnostic as assembled in `makeDiagnostic`. -/
structure Diagnostic where
  severity : DiagnosticSeverity
  range : Range
  message : String
  source : String
deriving DecidableEq, Repr

/-- One correction produced by the prh engine: half-open span
`[index, tailIndex)` with an optional replacement (`newText`) and the
optional `rule.raw.prh` annotation used in diagnostic messages. -/
structure Diff where
  index : Nat
  tailIndex : Nat
  newText : Option String
  rulePrh : Option String
deriving DecidableEq, Repr

/-- The engine's result: an ordered list of corrections. -/
structure ChangeSet where
  diffs : List Diff
deriving DecidableEq, Repr

/-- The rule engine (external collaborator): a pure function from
(uri, document text) to an optional change set. -/
structure Engine where
  makeChangeSet : String → String → Option ChangeSet

/-- A validation-cache entry (`ChangeSetCache` in the source). -/
structure ChangeSetCache where
  version : Nat
  changeSet : ChangeSet
deriving DecidableEq, Repr

/-- Config validity (`const enum State` in the source). -/
inductive State where
  | valid
  | invalid
deriving DecidableEq, Repr

/-- An open text document, together with its offset/position conversions
(which the vscode-languageserver library derives from the text). -/
structure TextDocument where
  uri : String
  version : Nat
  text : String
  offsetAt : Position → Nat
  positionAt : Nat → Position

/-- Outgoing protocol effects of a handler invocation, in emission order.
`engineInvoked` marks each call into `Engine.makeChangeSet`, so the number of
engine invocations of a run is observable. -/
inductive Effect where
  | log (msg : String)
  | consoleError (msg : String)
  | showWarningMessage (msg : String)
  | showErrorMessage (msg : String)
  | sendDiagnostics (uri : String) (diagnostics : List Diagnostic)
  | applyEdit (uri : String) (version : Nat) (edits : List TextEdit)
  | engineInvoked (uri : String)
deriving Repr

/-- Whether an effect is an `applyEdit` submission to the host. -/
def Effect.isApplyEdit : Effect → Bool
  | .applyEdit _ _ _ => true
  | _ => false

/-- Whether an effect marks an engine invocation. -/
def Effect.isEngineInvoked : Effect → Bool
  | .engineInvoked _ => true
  | _ => false

/-- Whether an effect is a user-visible message (host show-message channel). -/
def Effect.isUserVisible : Effect → Bool
  | .showWarningMessage _ => true
  | .showErrorMessage _ => true
  | _ => false

/-- Whether an effect is a `showWarningMessage`. -/
def Effect.isShowWarning : Effect → Bool
  | .showWarningMessage _ => true
  | _ => false

/-- Whether an effect is a console log line. -/
def Effect.isLog : Effect → Bool
  | .log _ => true
  | _ => false

/-- The external environment: file system, rule-file discovery, the YAML
engine factory (an `Except` result models `fromYAMLFilePaths` throwing an
`Error` with a message), URI decomposition, and the open-document store. -/
structure Env where
  existsSync : String → Bool
  getRuleFilePath : String → Option String
  fromYAMLFilePaths : List String → Except String Engine
  uriScheme : String → String
  uriPath : String → String
  documents : List TextDocument

/-- `documents.get(uri)`. -/
def Env.docGet (env : Env) (uri : String) : Option TextDocument :=
  env.documents.find? (fun d => d.uri == uri)

/-- Association-list lookup keyed by string (a JS object used as a map). -/
def lookupA {α : Type} (k : String) : List (String × α) → Option α
  | [] => none
  | (k', v) :: rest => if k' = k then some v else lookupA k rest

/-- Remove a key (`delete obj[k]`). -/
def eraseA {α : Type} (k : String) : List (String × α) → List (String × α)
  | [] => []
  | (k', v) :: rest => if k' = k then eraseA k rest else (k', v) :: eraseA k rest

/-- Store under a key (`obj[k] = v`). -/
def insertA {α : Type} (k : String) (v : α) (m : List (String × α)) : List (String × α) :=
  (k, v) :: eraseA k m

/-- JS `a || b` on an optional string (empty string is falsy). -/
def jsOr : Option String → String → String
  | some s, d => if s = "" then d else s
  | none, d => d

/-- JS truthiness of `paths && paths[0]`: nonempty list with nonempty head. -/
def jsTruthyHead : List String → Bool
  | [] => false
  | p :: _ => p != ""

/-- The mutable fields of the `Handler` class. -/
structure Handler where
  enable : Bool
  configPaths : Option (List String)
  state : State
  engineCache : List (String × Engine)
  validationCache : List (String × ChangeSetCache)

/-- `invalidateCache()`: drop both caches in full. -/
def Handler.invalidateCache (h : Handler) : Handler :=
  { h with engineCache := [], validationCache := [] }

/-- Result of `makeChangeSet`: the optional change set, the updated handler
state, and the emitted effects. -/
structure MCSOut where
  result : Option ChangeSet
  handler : Handler
  effects : List Effect

/-- Abstraction of `JSON.stringify(diff)` (payload text is not behaviour-relevant). -/
def stringifyDiff (d : Diff) : String :=
  "diff " ++ toString d.index ++ " " ++ toString d.tailIndex ++ " " ++ jsOr d.newText ""

/-- Rule-set resolution for a document not covered by the global config
(lines 213-224 of the source): a non-file scheme or a failed
`getRuleFilePath` lookup yields no rule set. -/
def Handler.resolveLocal (env : Env) (doc : TextDocument) : Option (List String) × List Effect :=
  if env.uriScheme doc.uri ≠ "file" then
    (none, [])
  else
    match env.getRuleFilePath (env.uriPath doc.uri) with
    | none => (none, [Effect.log ("rule file not found for " ++ doc.uri)])
    | some foundPath =>
      if foundPath = "" then
        (none, [Effect.log ("rule file not found for " ++ doc.uri)])
      else
        (some [foundPath], [Effect.log ("rule file found: " ++ foundPath)])

/-- Lines 240-249: invoke the engine on the document's full text; a non-null
change set is stored in the validation cache under the document's uri with
the document's current version. -/
def Handler.runEngine (h : Handler) (doc : TextDocument) (engine : Engine)
    (effs : List Effect) : MCSOut :=
  match engine.makeChangeSet doc.uri doc.text with
  | none => ⟨none, h, effs ++ [Effect.engineInvoked doc.uri]⟩
  | some changeSet =>
    ⟨some changeSet,
     { h with validationCache := insertA doc.uri ⟨doc.version, changeSet⟩ h.validationCache },
     effs ++ [Effect.engineInvoked doc.uri]⟩

/-- Lines 226-238: engine-cache lookup; on miss, construct the engine from
the rule-file paths.  A construction failure (an `Error` with message `msg`)
is logged, surfaced via `showErrorMessage` with the message and the path
list, and nothing is cached; on success the engine is cached before use. -/
def Handler.withEngine (env : Env) (h : Handler) (doc : TextDocument)
    (configPaths : List String) (effs : List Effect) : MCSOut :=
  match lookupA (String.intercalate "|" configPaths) h.engineCache with
  | some engine => Handler.runEngine h doc engine effs
  | none =>
    match env.fromYAMLFilePaths configPaths with
    | Except.error msg =>
      ⟨none, h,
       effs ++ [Effect.consoleError msg,
                Effect.showErrorMessage
                  ("prh: `" ++ msg ++ "` from " ++ String.intercalate " ," configPaths)]⟩
    | Except.ok engine =>
      Handler.runEngine
        { h with engineCache :=
            insertA (String.intercalate "|" configPaths) engine h.engineCache }
        doc engine effs

/-- Lines 209-249: the cache-miss path of `makeChangeSet`: resolve the
applicable rule-file paths (global config if present and truthy, otherwise
discovery relative to the document) and run the engine. -/
def Handler.makeChangeSetUncached (env : Env) (h : Handler) (doc : TextDocument) : MCSOut :=
  match (match h.configPaths with
         | some paths =>
           if jsTruthyHead paths then (some paths, []) else Handler.resolveLocal env doc
         | none => Handler.resolveLocal env doc) with
  | (none, effs) => ⟨none, h, effs⟩
  | (some configPaths, effs) => Handler.withEngine env h doc configPaths effs

/-- `makeChangeSet` (lines 200-250): guard on enablement and config validity,
version-checked validation-cache lookup, then the uncached path after
deleting any stale entry. -/
def Handler.makeChangeSet (env : Env) (h : Handler) (doc : TextDocument) : MCSOut :=
  if h.enable = false ∨ h.state = State.invalid then
    ⟨none, h, []⟩
  else
    match lookupA doc.uri h.validationCache with
    | some cache =>
      if cache.version = doc.version then
        ⟨some cache.changeSet, h, []⟩
      else
        Handler.makeChangeSetUncached env
          { h with validationCache := eraseA doc.uri h.validationCache } doc
    | none =>
      Handler.makeChangeSetUncached env
        { h with validationCache := eraseA doc.uri h.validationCache } doc

/-- The diagnostic built from one diff (lines 258-279). -/
def diagnosticOfDiff (doc : TextDocument) (diff : Diff) : Diagnostic :=
  let start := doc.positionAt diff.index
  let endPos := doc.positionAt diff.tailIndex
  let message :=
    match diff.rulePrh with
    | some prh =>
      if prh = "" then "→" ++ jsOr diff.newText "??"
      else "→" ++ jsOr diff.newText "??" ++ " " ++ prh
    | none => "→" ++ jsOr diff.newText "??"
  ⟨DiagnosticSeverity.warning, ⟨start, endPos⟩, message, "prh"⟩

/-- `makeDiagnostic` (lines 252-280): map the change set's diffs to warning
diagnostics (logging each diff; the discarded `diff.apply` call is pure and
omitted). -/
def Handler.makeDiagnostic (env : Env) (h : Handler) (doc : TextDocument) :
    Option (List Diagnostic) × Handler × List Effect :=
  let o := Handler.makeChangeSet env h doc
  match o.result with
  | none => (none, o.handler, o.effects)
  | some changeSet =>
    (some (changeSet.diffs.map (diagnosticOfDiff doc)),
     o.handler,
     o.effects ++ changeSet.diffs.map (fun diff => Effect.log (stringifyDiff diff)))

/-- `validateAndSendDiagnostics` (lines 282-285): a null diagnostic list is
published as the empty list (`diagnostics || []`). -/
def Handler.validateAndSendDiagnostics (env : Env) (h : Handler) (doc : TextDocument) :
    Handler × List Effect :=
  let (diagnostics, h1, effs) := Handler.makeDiagnostic env h doc
  (h1, effs ++ [Effect.sendDiagnostics doc.uri (diagnostics.getD [])])

/-- Revalidate every open document in order (`documents.all().forEach(...)`). -/
def validateAll (env : Env) (h : Handler) : Handler × List Effect :=
  env.documents.foldl
    (fun acc doc =>
      let (h1, effs) := Handler.validateAndSendDiagnostics env acc.1 doc
      (h1, acc.2 ++ effs))
    (h, [])

/-- The path-existence loop of `checkConfig` (lines 186-197): the first
missing path logs, warns unless the state is already invalid, sets the state
invalid, clears diagnostics for every open document and stops; if every path
exists the state becomes valid. -/
def Handler.checkConfigLoop (env : Env) (h : Handler) :
    List String → List Effect → Handler × List Effect
  | [], effs => ({ h with state := State.valid }, effs)
  | configPath :: rest, effs =>
    if env.existsSync configPath then
      Handler.checkConfigLoop env h rest effs
    else
      let effs1 := effs ++ [Effect.log ("rule file not exists: " ++ configPath)]
      let effs2 :=
        if h.state ≠ State.invalid then
          effs1 ++ [Effect.showWarningMessage
            ("prh: 指定された設定ファイルが見つかりません " ++ configPath)]
        else effs1
      ({ h with state := State.invalid },
       effs2 ++ env.documents.map (fun d => Effect.sendDiagnostics d.uri []))

/-- `checkConfig` (lines 180-198): normalise `configPaths`, log, drop both
caches in full, then run the existence check. -/
def Handler.checkConfig (env : Env) (h : Handler) : Handler × List Effect :=
  let configPaths := h.configPaths.getD []
  let h1 := { h with configPaths := some configPaths }
  let joined := String.intercalate ", " configPaths
  let e0 := [Effect.log ("loadConfig: " ++ (if joined = "" then "implicit" else joined))]
  Handler.checkConfigLoop env (Handler.invalidateCache h1) configPaths e0

/-- The `prh` section of the settings payload. -/
structure PrhSettings where
  enable : Option Bool
  configFiles : Option (List String)

/-- Lines 95-97: `this.enable = !!settings.prh.enable` and
`this.configPaths = settings.prh.configFiles || []`. -/
def Handler.applySettings (h : Handler) (settings : PrhSettings) : Handler :=
  { h with enable := settings.enable.getD false,
           configPaths := some (settings.configFiles.getD []) }

/-- `onDidChangeConfiguration` (lines 92-101): apply the settings, re-check
the config (which invalidates both caches), then revalidate every open
document.  The JSON payload log is abstracted to a fixed line. -/
def Handler.onDidChangeConfiguration (env : Env) (h : Handler) (settings : PrhSettings) :
    Handler × List Effect :=
  let h1 := Handler.applySettings h settings
  let (h2, e2) := Handler.checkConfig env h1
  let (h3, e3) := validateAll env h2
  (h3, Effect.log "onDidChangeConfiguration" :: (e2 ++ e3))

/-- Model of JS `"…".split("|")` (structural over the character list). -/
def splitPipeAux : List Char → List Char → List String
  | [], acc => [String.mk acc.reverse]
  | c :: rest, acc =>
    if c = '|' then String.mk acc.reverse :: splitPipeAux rest []
    else splitPipeAux rest (c :: acc)

def splitPipe (s : String) : List String := splitPipeAux s.data []

/-- Model of JS `String.prototype.endsWith` (structural over character lists). -/
def strEndsWith (s post : String) : Bool := post.data.isSuffixOf s.data

/-- Lines 111-125: does some changed file's path end with some rule path of
some engine-cache key (keys are `"|"`-joined path lists)? -/
def Handler.watchedConfigChanged (env : Env) (h : Handler) (changes : List String) : Bool :=
  changes.any (fun changedUri =>
    h.engineCache.any (fun entry =>
      (splitPipe entry.1).any (fun rulePath =>
        strEndsWith (env.uriPath changedUri) rulePath)))

/-- `onDidChangeWatchedFiles` (lines 107-130): on a rule-file match, re-check
the config and revalidate all open documents.  Trace logging (the payload
line and the per-match lines) is abstracted away. -/
def Handler.onDidChangeWatchedFiles (env : Env) (h : Handler) (changes : List String) :
    Handler × List Effect :=
  if Handler.watchedConfigChanged env h changes then
    let (h2, e2) := Handler.checkConfig env h
    let (h3, e3) := validateAll env h2
    (h3, e2 ++ e3)
  else
    (h, [])

/-- Arguments of the `replace` command. -/
structure ReplaceCommandParams where
  uri : String
  version : Nat
  textEdit : TextEdit
deriving DecidableEq, Repr

/-- A code-action command as returned by `onCodeAction`. -/
structure Command where
  title : String
  command : String
  arguments : List ReplaceCommandParams
deriving DecidableEq, Repr

/-- Code-action request payload. -/
structure CodeActionParams where
  uri : String
  range : Range
deriving DecidableEq, Repr

/-- `onCodeAction` (lines 132-160): validate, keep exactly the diffs whose
span equals the requested range converted to offsets, and map each to a
`replace` command stamped with the document's uri and current version.
`none` models the TypeError the source would throw when the document is not
open (`documents.get` returns `undefined`). -/
def Handler.onCodeAction (env : Env) (h : Handler) (params : CodeActionParams) :
    Option (List Command × Handler × List Effect) :=
  match env.docGet params.uri with
  | none => none
  | some textDocument =>
    let o := Handler.makeChangeSet env h textDocument
    match o.result with
    | none => some ([], o.handler, o.effects)
    | some changeSet =>
      let index := textDocument.offsetAt params.range.start
      let tailIndex := textDocument.offsetAt params.range.endPos
      let cmds :=
        (changeSet.diffs.filter
          (fun diff => diff.index = index ∧ diff.tailIndex = tailIndex)).map
          (fun diff =>
            { title := "→ " ++ jsOr diff.newText "??",
              command := "replace",
              arguments := [{ uri := textDocument.uri,
                              version := textDocument.version,
                              textEdit := { range := params.range,
                                            newText := jsOr diff.newText "??" } }] })
      some (cmds, o.handler, o.effects)

/-- Abstraction of `JSON.stringify(commandParams)` in `executeReplace`. -/
def stringifyReplaceParams (p : ReplaceCommandParams) : String :=
  "replace " ++ p.uri ++ " v" ++ toString p.version

/-- `executeReplace` (lines 291-317): missing arguments are a silent no-op; a
version mismatch logs and submits nothing; otherwise exactly one edit is
submitted via `applyEdit` against the document's current version.  The
asynchronous result logging of the host call is not modelled; `none` models
the TypeError when the target document is not open. -/
def Handler.executeReplace (env : Env) (h : Handler) (args : Option ReplaceCommandParams) :
    Option (Handler × List Effect) :=
  match args with
  | none => some (h, [])
  | some commandParams =>
    match env.docGet commandParams.uri with
    | none => none
    | some textDocument =>
      if commandParams.version ≠ textDocument.version then
        some (h, [Effect.log (stringifyReplaceParams commandParams),
                  Effect.log ("Replace, document version mismatch: expected: "
                    ++ toString commandParams.version ++ ", actual: "
                    ++ toString textDocument.version)])
      else
        some (h, [Effect.log (stringifyReplaceParams commandParams),
                  Effect.applyEdit textDocument.uri textDocument.version
                    [commandParams.textEdit]])

/-- `getTextEditFromDiff` (lines 345-352). -/
def Handler.getTextEditFromDiff (textDocument : TextDocument) (diff : Diff) : TextEdit :=
  { range := { start := textDocument.positionAt diff.index,
               endPos := textDocument.positionAt diff.tailIndex },
    newText := jsOr diff.newText "??" }

/-- `executeApplyAllQuickFixes` (lines 319-343): a missing or falsy uri
argument is a silent no-op; otherwise the live document is re-validated and
every diff is mapped, in change-set order, to an edit of one batched
`applyEdit` stamped with the document's current version.  `none` models the
TypeError when the document is not open. -/
def Handler.executeApplyAllQuickFixes (env : Env) (h : Handler) (uriArg : Option String) :
    Option (Handler × List Effect) :=
  match uriArg with
  | none => some (h, [])
  | some uri =>
    if uri = "" then some (h, [])
    else
      match env.docGet uri with
      | none => none
      | some textDocument =>
        let o := Handler.makeChangeSet env h textDocument
        match o.result with
        | none => some (o.handler, o.effects)
        | some changeSet =>
          some (o.handler,
            o.effects ++ [Effect.applyEdit textDocument.uri textDocument.version
              (changeSet.diffs.map (Handler.getTextEditFromDiff textDocument))])

/-! ### Basic lemmas about the association-list maps -/

theorem lookupA_insertA_self {α : Type} (k : String) (v : α) (m : List (String × α)) :
    lookupA k (insertA k v m) = some v := by
  simp [insertA, lookupA]

theorem lookupA_eraseA_self {α : Type} (k : String) (m : List (String × α)) :
    lookupA k (eraseA k m) = none := by
  induction m with
  | nil => rfl
  | cons p rest ih =>
    by_cases hk : p.1 = k
    · simpa [eraseA, hk] using ih
    · simpa [eraseA, lookupA, hk] using ih

/-! ### Branch lemmas for the `makeChangeSet` chain -/

theorem resolveLocal_effects_log (env : Env) (doc : TextDocument) :
    ∀ e ∈ (Handler.resolveLocal env doc).2, e.isLog = true := by
  intro e he
  unfold Handler.resolveLocal at he
  split at he
  · simp at he
  · split at he
    · simp at he
      subst he
      rfl
    · split at he <;>
      · simp at he
        subst he
        rfl

theorem runEngine_none (h : Handler) (doc : TextDocument) (engine : Engine)
    (effs : List Effect) (hn : engine.makeChangeSet doc.uri doc.text = none) :
    Handler.runEngine h doc engine effs =
      ⟨none, h, effs ++ [Effect.engineInvoked doc.uri]⟩ := by
  unfold Handler.runEngine
  rw [hn]

theorem runEngine_some (h : Handler) (doc : TextDocument) (engine : Engine)
    (effs : List Effect) (cs : ChangeSet)
    (hs : engine.makeChangeSet doc.uri doc.text = some cs) :
    Handler.runEngine h doc engine effs =
      ⟨some cs,
       { h with validationCache := insertA doc.uri ⟨doc.version, cs⟩ h.validationCache },
       effs ++ [Effect.engineInvoked doc.uri]⟩ := by
  unfold Handler.runEngine
  rw [hs]

theorem withEngine_cached (env : Env) (h : Handler) (doc : TextDocument)
    (configPaths : List String) (effs : List Effect) (engine : Engine)
    (hc : lookupA (String.intercalate "|" configPaths) h.engineCache = some engine) :
    Handler.withEngine env h doc configPaths effs = Handler.runEngine h doc engine effs := by
  unfold Handler.withEngine
  rw [hc]

theorem withEngine_error (env : Env) (h : Handler) (doc : TextDocument)
    (configPaths : List String) (effs : List Effect) (msg : String)
    (hc : lookupA (String.intercalate "|" configPaths) h.engineCache = none)
    (he : env.fromYAMLFilePaths configPaths = Except.error msg) :
    Handler.withEngine env h doc configPaths effs =
      ⟨none, h,
       effs ++ [Effect.consoleError msg,
                Effect.showErrorMessage
                  ("prh: `" ++ msg ++ "` from " ++ String.intercalate " ," configPaths)]⟩ := by
  unfold Handler.withEngine
  rw [hc, he]

theorem withEngine_ok (env : Env) (h : Handler) (doc : TextDocument)
    (configPaths : List String) (effs : List Effect) (engine : Engine)
    (hc : lookupA (String.intercalate "|" configPaths) h.engineCache = none)
    (he : env.fromYAMLFilePaths configPaths = Except.ok engine) :
    Handler.withEngine env h doc configPaths effs =
      Handler.runEngine
        { h with engineCache :=
            insertA (String.intercalate "|" configPaths) engine h.engineCache }
        doc engine effs := by
  unfold Handler.withEngine
  rw [hc, he]

theorem uncached_global (env : Env) (h : Handler) (doc : TextDocument) (paths : List String)
    (hp : h.configPaths = some paths) (ht : jsTruthyHead paths = true) :
    Handler.makeChangeSetUncached env h doc = Handler.withEngine env h doc paths [] := by
  unfold Handler.makeChangeSetUncached
  rw [hp]
  simp [ht]

/-- Whether the global configuration applies (`this.configPaths && this.configPaths[0]`). -/
def Handler.globalConfigured (h : Handler) : Bool :=
  match h.configPaths with
  | some paths => jsTruthyHead paths
  | none => false

theorem uncached_resolveLocal (env : Env) (h : Handler) (doc : TextDocument)
    (hg : Handler.globalConfigured h = false) :
    Handler.makeChangeSetUncached env h doc =
      (match Handler.resolveLocal env doc with
       | (none, effs) => ⟨none, h, effs⟩
       | (some configPaths, effs) => Handler.withEngine env h doc configPaths effs) := by
  unfold Handler.makeChangeSetUncached
  unfold Handler.globalConfigured at hg
  cases hp : h.configPaths with
  | none => rfl
  | some paths =>
    rw [hp] at hg
    simp at hg
    simp [hg]

theorem uncached_local (env : Env) (h : Handler) (doc : TextDocument)
    (hg : Handler.globalConfigured h = false)
    (hf : (Handler.resolveLocal env doc).1 = none) :
    Handler.makeChangeSetUncached env h doc = ⟨none, h, (Handler.resolveLocal env doc).2⟩ := by
  rw [uncached_resolveLocal env h doc hg]
  rcases hres : Handler.resolveLocal env doc with ⟨a, b⟩
  rw [hres] at hf
  simp at hf
  subst hf
  rfl

theorem mcs_guard (env : Env) (h : Handler) (doc : TextDocument)
    (hyp : h.enable = false ∨ h.state = State.invalid) :
    Handler.makeChangeSet env h doc = ⟨none, h, []⟩ := by
  unfold Handler.makeChangeSet
  rw [if_pos hyp]

theorem mcs_hit (env : Env) (h : Handler) (doc : TextDocument) (cs : ChangeSet)
    (he : h.enable = true) (hs : h.state = State.valid)
    (hc : lookupA doc.uri h.validationCache = some ⟨doc.version, cs⟩) :
    Handler.makeChangeSet env h doc = ⟨some cs, h, []⟩ := by
  unfold Handler.makeChangeSet
  rw [if_neg (by simp [he, hs])]
  rw [hc]
  simp

theorem mcs_miss (env : Env) (h : Handler) (doc : TextDocument)
    (he : h.enable = true) (hs : h.state = State.valid)
    (hm : ∀ c, lookupA doc.uri h.validationCache = some c → ¬c.version = doc.version) :
    Handler.makeChangeSet env h doc =
      Handler.makeChangeSetUncached env
        { h with validationCache := eraseA doc.uri h.validationCache } doc := by
  unfold Handler.makeChangeSet
  rw [if_neg (by simp [he, hs])]
  cases hc : lookupA doc.uri h.validationCache with
  | none => rfl
  | some cache => simp [hm cache hc]

/-! ### Preservation: the validation path never changes `enable`, `state` or
`configPaths` -/

theorem runEngine_preserves (h : Handler) (doc : TextDocument) (engine : Engine)
    (effs : List Effect) :
    (Handler.runEngine h doc engine effs).handler.enable = h.enable ∧
    (Handler.runEngine h doc engine effs).handler.state = h.state ∧
    (Handler.runEngine h doc engine effs).handler.configPaths = h.configPaths ∧
    (Handler.runEngine h doc engine effs).handler.engineCache = h.engineCache := by
  unfold Handler.runEngine
  cases engine.makeChangeSet doc.uri doc.text <;> simp

theorem withEngine_preserves (env : Env) (h : Handler) (doc : TextDocument)
    (configPaths : List String) (effs : List Effect) :
    (Handler.withEngine env h doc configPaths effs).handler.enable = h.enable ∧
    (Handler.withEngine env h doc configPaths effs).handler.state = h.state ∧
    (Handler.withEngine env h doc configPaths effs).handler.configPaths = h.configPaths := by
  unfold Handler.withEngine
  cases hc : lookupA (String.intercalate "|" configPaths) h.engineCache with
  | some engine => exact ⟨(runEngine_preserves h doc engine effs).1,
      (runEngine_preserves h doc engine effs).2.1,
      (runEngine_preserves h doc engine effs).2.2.1⟩
  | none =>
    cases hf : env.fromYAMLFilePaths configPaths with
    | error msg => simp
    | ok engine =>
      refine ⟨?_, ?_, ?_⟩ <;>
        simp [runEngine_preserves
          { h with engineCache :=
              insertA (String.intercalate "|" configPaths) engine h.engineCache }
          doc engine effs]

theorem uncached_preserves (env : Env) (h : Handler) (doc : TextDocument) :
    (Handler.makeChangeSetUncached env h doc).handler.enable = h.enable ∧
    (Handler.makeChangeSetUncached env h doc).handler.state = h.state ∧
    (Handler.makeChangeSetUncached env h doc).handler.configPaths = h.configPaths := by
  unfold Handler.makeChangeSetUncached
  split
  · simp
  · rename_i configPaths effs heq
    exact withEngine_preserves env h doc configPaths effs

theorem mcs_preserves (env : Env) (h : Handler) (doc : TextDocument) :
    (Handler.makeChangeSet env h doc).handler.enable = h.enable ∧
    (Handler.makeChangeSet env h doc).handler.state = h.state ∧
    (Handler.makeChangeSet env h doc).handler.configPaths = h.configPaths := by
  unfold Handler.makeChangeSet
  split
  · simp
  · split
    · split
      · simp
      · exact uncached_preserves env _ doc
    · exact uncached_preserves env _ doc

/-! ### Postconditions of a successful validation -/

theorem runEngine_post_some (h : Handler) (doc : TextDocument) (engine : Engine)
    (effs : List Effect) (cs : ChangeSet)
    (hr : (Handler.runEngine h doc engine effs).result = some cs) :
    lookupA doc.uri (Handler.runEngine h doc engine effs).handler.validationCache =
      some ⟨doc.version, cs⟩ := by
  unfold Handler.runEngine at hr ⊢
  cases hm : engine.makeChangeSet doc.uri doc.text with
  | none => rw [hm] at hr; simp at hr
  | some cs' =>
    rw [hm] at hr
    simp at hr
    subst hr
    simp [lookupA_insertA_self]

theorem withEngine_post_some (env : Env) (h : Handler) (doc : TextDocument)
    (configPaths : List String) (effs : List Effect) (cs : ChangeSet)
    (hr : (Handler.withEngine env h doc configPaths effs).result = some cs) :
    lookupA doc.uri (Handler.withEngine env h doc configPaths effs).handler.validationCache =
      some ⟨doc.version, cs⟩ := by
  unfold Handler.withEngine at hr ⊢
  cases hc : lookupA (String.intercalate "|" configPaths) h.engineCache with
  | some engine =>
    rw [hc] at hr
    exact runEngine_post_some h doc engine effs cs hr
  | none =>
    rw [hc] at hr
    cases hf : env.fromYAMLFilePaths configPaths with
    | error msg => rw [hf] at hr; simp at hr
    | ok engine =>
      rw [hf] at hr
      exact runEngine_post_some _ doc engine effs cs hr

theorem uncached_post_some (env : Env) (h : Handler) (doc : TextDocument) (cs : ChangeSet)
    (hr : (Handler.makeChangeSetUncached env h doc).result = some cs) :
    lookupA doc.uri (Handler.makeChangeSetUncached env h doc).handler.validationCache =
      some ⟨doc.version, cs⟩ := by
  unfold Handler.makeChangeSetUncached at hr ⊢
  split
  · rename_i effs heq
    rw [heq] at hr
    simp at hr
  · rename_i configPaths effs heq
    rw [heq] at hr
    exact withEngine_post_some env h doc configPaths effs cs hr

theorem mcs_some_enabled (env : Env) (h : Handler) (doc : TextDocument) (cs : ChangeSet)
    (hr : (Handler.makeChangeSet env h doc).result = some cs) :
    h.enable = true ∧ h.state = State.valid := by
  unfold Handler.makeChangeSet at hr
  by_cases hg : h.enable = false ∨ h.state = State.invalid
  · rw [if_pos hg] at hr
    simp at hr
  · push_neg at hg
    constructor
    · cases he : h.enable
      · exact absurd he hg.1
      · rfl
    · cases hs : h.state
      · rfl
      · exact absurd hs hg.2

theorem mcs_post_some (env : Env) (h : Handler) (doc : TextDocument) (cs : ChangeSet)
    (hr : (Handler.makeChangeSet env h doc).result = some cs) :
    lookupA doc.uri (Handler.makeChangeSet env h doc).handler.validationCache =
      some ⟨doc.version, cs⟩ := by
  obtain ⟨he, hs⟩ := mcs_some_enabled env h doc cs hr
  cases hc : lookupA doc.uri h.validationCache with
  | some cache =>
    obtain ⟨cv, ccs⟩ := cache
    by_cases hv : cv = doc.version
    · subst hv
      have hhit := mcs_hit env h doc ccs he hs hc
      rw [hhit] at hr ⊢
      simp at hr
      subst hr
      exact hc
    · have hmiss := mcs_miss env h doc he hs (by
        intro c hcc
        rw [hc] at hcc
        injection hcc with h1
        rw [← h1]
        exact hv)
      rw [hmiss] at hr ⊢
      exact uncached_post_some env _ doc cs hr
  | none =>
    have hmiss := mcs_miss env h doc he hs (by
      intro c hcc
      rw [hc] at hcc
      cases hcc)
    rw [hmiss] at hr ⊢
    exact uncached_post_some env _ doc cs hr

/-! ### Fixtures for concrete witnesses -/

/-- A correction flagging the first three characters with suggestion `JavaScript`. -/
def demoDiff : Diff := ⟨0, 3, some "JavaScript", none⟩

def demoChangeSet : ChangeSet := ⟨[demoDiff]⟩

/-- An engine that always reports `demoChangeSet`. -/
def demoEngine : Engine := ⟨fun _ _ => some demoChangeSet⟩

def demoDoc : TextDocument :=
  ⟨"file:///a.md", 3, "jsc text", fun p => p.character, fun n => ⟨0, n⟩⟩

def demoEnv : Env :=
  ⟨fun _ => true, fun _ => none, fun _ => Except.ok demoEngine,
   fun _ => "file", fun u => u, [demoDoc]⟩

def demoHandler : Handler :=
  ⟨true, some ["prh.yml"], State.valid, [("prh.yml", demoEngine)], []⟩

def demoHandlerDisabled : Handler := { demoHandler with enable := false }

/-! ### Claim theorems -/

/-- C1: if `makeChangeSet` (validate) on a document yields a change set, then a
second call on the same document with no intervening content change or
configuration/watched-file event returns the identical cached change set, does
not change the handler state, emits no effects, and in particular does not
invoke the rule engine a second time. -/
theorem c1_second_validation_returns_cached (env : Env) (h : Handler) (doc : TextDocument)
    (cs : ChangeSet) (hr : (Handler.makeChangeSet env h doc).result = some cs) :
    Handler.makeChangeSet env (Handler.makeChangeSet env h doc).handler doc =
      ⟨some cs, (Handler.makeChangeSet env h doc).handler, []⟩ ∧
    (Handler.makeChangeSet env (Handler.makeChangeSet env h doc).handler doc).effects.countP
      Effect.isEngineInvoked = 0 := by
  obtain ⟨he, hs⟩ := mcs_some_enabled env h doc cs hr
  obtain ⟨pe, ps, _⟩ := mcs_preserves env h doc
  have hlk := mcs_post_some env h doc cs hr
  have h2 := mcs_hit env (Handler.makeChangeSet env h doc).handler doc cs
    (by rw [pe, he]) (by rw [ps, hs]) hlk
  exact ⟨h2, by rw [h2]; rfl⟩

theorem c1_witness :
    (Handler.makeChangeSet demoEnv demoHandler demoDoc).result = some demoChangeSet ∧
    Handler.makeChangeSet demoEnv
        (Handler.makeChangeSet demoEnv demoHandler demoDoc).handler demoDoc =
      ⟨some demoChangeSet, (Handler.makeChangeSet demoEnv demoHandler demoDoc).handler, []⟩ :=
  ⟨rfl, (c1_second_validation_returns_cached demoEnv demoHandler demoDoc demoChangeSet rfl).1⟩

/-- C2: when the enabled flag is off or the config state is invalid,
`makeChangeSet` returns `none` with no effects (in particular no engine
invocation), and `validateAndSendDiagnostics` publishes an empty diagnostic
list for the document rather than leaving previous diagnostics in place. -/
theorem c2_disabled_clears_diagnostics (env : Env) (h : Handler) (doc : TextDocument)
    (hyp : h.enable = false ∨ h.state = State.invalid) :
    Handler.makeChangeSet env h doc = ⟨none, h, []⟩ ∧
    (Handler.makeChangeSet env h doc).effects.countP Effect.isEngineInvoked = 0 ∧
    Handler.validateAndSendDiagnostics env h doc =
      (h, [Effect.sendDiagnostics doc.uri []]) := by
  have h1 := mcs_guard env h doc hyp
  refine ⟨h1, by rw [h1]; rfl, ?_⟩
  unfold Handler.validateAndSendDiagnostics Handler.makeDiagnostic
  rw [h1]
  rfl

theorem c2_witness :
    Handler.makeChangeSet demoEnv demoHandlerDisabled demoDoc =
      ⟨none, demoHandlerDisabled, []⟩ ∧
    (Handler.makeChangeSet demoEnv demoHandlerDisabled demoDoc).effects.countP
      Effect.isEngineInvoked = 0 ∧
    Handler.validateAndSendDiagnostics demoEnv demoHandlerDisabled demoDoc =
      (demoHandlerDisabled, [Effect.sendDiagnostics demoDoc.uri []]) :=
  c2_disabled_clears_diagnostics demoEnv demoHandlerDisabled demoDoc (Or.inl rfl)

/-- C3: for a `replace` command on an open document, a stale expected version
means no edit is submitted (no `applyEdit` effect) and the mismatch is logged,
with no exception; matching versions submit exactly one text edit for that
document. -/
theorem c3_replace_version_guard (env : Env) (h : Handler) (doc : TextDocument)
    (params : ReplaceCommandParams) (hdoc : env.docGet params.uri = some doc) :
    (params.version ≠ doc.version →
      ∃ effs, Handler.executeReplace env h (some params) = some (h, effs) ∧
        (∀ e ∈ effs, e.isApplyEdit = false) ∧
        Effect.log ("Replace, document version mismatch: expected: "
          ++ toString params.version ++ ", actual: " ++ toString doc.version) ∈ effs) ∧
    (params.version = doc.version →
      Handler.executeReplace env h (some params) =
        some (h, [Effect.log (stringifyReplaceParams params),
                  Effect.applyEdit doc.uri doc.version [params.textEdit]])) := by
  constructor
  · intro hv
    refine ⟨[Effect.log (stringifyReplaceParams params),
             Effect.log ("Replace, document version mismatch: expected: "
               ++ toString params.version ++ ", actual: " ++ toString doc.version)],
            ?_, ?_, ?_⟩
    · simp only [Handler.executeReplace]
      rw [hdoc]
      simp [hv]
    · intro e he
      simp at he
      rcases he with he | he <;> subst he <;> rfl
    · simp
  · intro hv
    simp only [Handler.executeReplace]
    rw [hdoc]
    simp [hv]

def demoReplaceParams : ReplaceCommandParams :=
  ⟨"file:///a.md", 2, ⟨⟨⟨0, 0⟩, ⟨0, 3⟩⟩, "JavaScript"⟩⟩

theorem c3_witness :
    ∃ effs, Handler.executeReplace demoEnv demoHandler (some demoReplaceParams) =
        some (demoHandler, effs) ∧
      (∀ e ∈ effs, e.isApplyEdit = false) ∧
      Effect.log ("Replace, document version mismatch: expected: "
        ++ toString demoReplaceParams.version ++ ", actual: "
        ++ toString demoDoc.version) ∈ effs :=
  (c3_replace_version_guard demoEnv demoHandler demoDoc demoReplaceParams rfl).1 (by decide)

/-! ### C4: configuration changes clear both caches before revalidation -/

theorem checkConfigLoop_caches (env : Env) (h : Handler) (paths : List String)
    (effs : List Effect) :
    (Handler.checkConfigLoop env h paths effs).1.engineCache = h.engineCache ∧
    (Handler.checkConfigLoop env h paths effs).1.validationCache = h.validationCache := by
  induction paths generalizing effs with
  | nil => exact ⟨rfl, rfl⟩
  | cons p rest ih =>
    unfold Handler.checkConfigLoop
    by_cases hp : env.existsSync p
    · simpa [hp] using ih _
    · simp [hp]

theorem checkConfig_clears_caches (env : Env) (h : Handler) :
    (Handler.checkConfig env h).1.engineCache = [] ∧
    (Handler.checkConfig env h).1.validationCache = [] := by
  unfold Handler.checkConfig
  exact checkConfigLoop_caches env _ _ _

/-- C4: whenever the configuration (or a watched rule file) changes, both the
engine cache and the validation cache are cleared in full before any
revalidation: `checkConfig` always leaves both caches empty, and both the
configuration-change handler and the watched-file handler factor as
`checkConfig` followed by revalidation of all open documents from the
checked (empty-cache) state. -/
theorem c4_config_change_invalidates_all (env : Env) (h : Handler) :
    (∀ h' : Handler, (Handler.checkConfig env h').1.engineCache = [] ∧
      (Handler.checkConfig env h').1.validationCache = []) ∧
    (∀ settings : PrhSettings,
      Handler.onDidChangeConfiguration env h settings =
        ((validateAll env (Handler.checkConfig env (Handler.applySettings h settings)).1).1,
         Effect.log "onDidChangeConfiguration" ::
           ((Handler.checkConfig env (Handler.applySettings h settings)).2 ++
            (validateAll env (Handler.checkConfig env (Handler.applySettings h settings)).1).2))) ∧
    (∀ changes : List String, Handler.watchedConfigChanged env h changes = true →
      Handler.onDidChangeWatchedFiles env h changes =
        ((validateAll env (Handler.checkConfig env h).1).1,
         (Handler.checkConfig env h).2 ++ (validateAll env (Handler.checkConfig env h).1).2)) := by
  refine ⟨fun h' => checkConfig_clears_caches env h', fun settings => rfl, fun changes hc => ?_⟩
  unfold Handler.onDidChangeWatchedFiles
  rw [if_pos hc]

def demoEnvMissing : Env :=
  ⟨fun _ => false, fun _ => none, fun _ => Except.ok demoEngine,
   fun _ => "file", fun u => u, [demoDoc]⟩

theorem c4_witness :
    (Handler.checkConfig demoEnv demoHandler).1.engineCache = [] ∧
    (Handler.checkConfig demoEnv demoHandler).1.validationCache = [] ∧
    Handler.onDidChangeWatchedFiles demoEnv demoHandler ["file:///prh.yml"] =
      ((validateAll demoEnv (Handler.checkConfig demoEnv demoHandler).1).1,
       (Handler.checkConfig demoEnv demoHandler).2 ++
         (validateAll demoEnv (Handler.checkConfig demoEnv demoHandler).1).2) := by
  have t := c4_config_change_invalidates_all demoEnv demoHandler
  exact ⟨(t.1 demoHandler).1, (t.1 demoHandler).2, t.2.2 ["file:///prh.yml"] (by decide)⟩

/-! ### Rule-set resolution (both modes) -/

/-- The rule-file path resolution of lines 209-224, covering both modes: the
globally configured list when present and truthy, otherwise discovery
relative to the document's own path (`resolveLocal`).  This is exactly the
scrutinee of `makeChangeSetUncached`. -/
def Handler.resolvedPaths (env : Env) (h : Handler) (doc : TextDocument) :
    Option (List String) × List Effect :=
  match h.configPaths with
  | some paths =>
    if jsTruthyHead paths then (some paths, []) else Handler.resolveLocal env doc
  | none => Handler.resolveLocal env doc

theorem uncached_eq_resolved (env : Env) (h : Handler) (doc : TextDocument) :
    Handler.makeChangeSetUncached env h doc =
      (match Handler.resolvedPaths env h doc with
       | (none, effs) => ⟨none, h, effs⟩
       | (some configPaths, effs) => Handler.withEngine env h doc configPaths effs) := rfl

theorem uncached_withEngine (env : Env) (h : Handler) (doc : TextDocument)
    (paths : List String) (effs : List Effect)
    (hres : Handler.resolvedPaths env h doc = (some paths, effs)) :
    Handler.makeChangeSetUncached env h doc = Handler.withEngine env h doc paths effs := by
  rw [uncached_eq_resolved env h doc, hres]

theorem resolvedPaths_effects_log (env : Env) (h : Handler) (doc : TextDocument) :
    ∀ e ∈ (Handler.resolvedPaths env h doc).2, e.isLog = true := by
  unfold Handler.resolvedPaths
  cases h.configPaths with
  | none => exact resolveLocal_effects_log env doc
  | some paths =>
    dsimp only
    by_cases ht : jsTruthyHead paths = true
    · rw [if_pos ht]
      simp
    · rw [if_neg ht]
      exact resolveLocal_effects_log env doc

theorem resolvedPaths_congr (env : Env) (h h2 : Handler) (doc : TextDocument)
    (hcp : h.configPaths = h2.configPaths) :
    Handler.resolvedPaths env h doc = Handler.resolvedPaths env h2 doc := by
  unfold Handler.resolvedPaths
  rw [hcp]

theorem log_not_engineInvoked (e : Effect) (hl : e.isLog = true) :
    e.isEngineInvoked = false := by
  cases e <;> simp_all [Effect.isLog, Effect.isEngineInvoked]

/-! ### C5: engine construction failure -/

/-- C5: on a validation-cache miss, whatever way the rule path list was
resolved (globally configured, or discovered relative to the document's own
path), if the engine-cache misses and engine construction fails, the failure
is logged and surfaced to the user with the parser's message and the
offending path list, validation returns `none`, nothing usable is cached for
that rule-set identity (the next lookup still misses, so construction is
retried), and the engine is never invoked; the function returns normally
(no process-level error). -/
theorem c5_engine_construction_failure (env : Env) (h : Handler) (doc : TextDocument)
    (paths : List String) (effs : List Effect) (msg : String)
    (he : h.enable = true) (hs : h.state = State.valid)
    (hm : ∀ c, lookupA doc.uri h.validationCache = some c → ¬ c.version = doc.version)
    (hres : Handler.resolvedPaths env h doc = (some paths, effs))
    (hec : lookupA (String.intercalate "|" paths) h.engineCache = none)
    (hfail : env.fromYAMLFilePaths paths = Except.error msg) :
    Handler.makeChangeSet env h doc =
      ⟨none, { h with validationCache := eraseA doc.uri h.validationCache },
       effs ++ [Effect.consoleError msg,
                Effect.showErrorMessage
                  ("prh: `" ++ msg ++ "` from " ++ String.intercalate " ," paths)]⟩ ∧
    lookupA (String.intercalate "|" paths)
      (Handler.makeChangeSet env h doc).handler.engineCache = none ∧
    (Handler.makeChangeSet env h doc).effects.countP Effect.isEngineInvoked = 0 := by
  have h1 := mcs_miss env h doc he hs hm
  have hres2 : Handler.resolvedPaths env
      { h with validationCache := eraseA doc.uri h.validationCache } doc =
      (some paths, effs) :=
    (resolvedPaths_congr env _ h doc rfl).trans hres
  have h2 := uncached_withEngine env
    { h with validationCache := eraseA doc.uri h.validationCache } doc paths effs hres2
  have h3 := withEngine_error env
    { h with validationCache := eraseA doc.uri h.validationCache } doc paths effs msg hec hfail
  have heffs0 : effs.countP Effect.isEngineInvoked = 0 := by
    refine List.countP_eq_zero.mpr ?_
    intro e he'
    have hl := resolvedPaths_effects_log env h doc e (by rw [hres]; exact he')
    simp [log_not_engineInvoked e hl]
  have hall : Handler.makeChangeSet env h doc =
      ⟨none, { h with validationCache := eraseA doc.uri h.validationCache },
       effs ++ [Effect.consoleError msg,
                Effect.showErrorMessage
                  ("prh: `" ++ msg ++ "` from " ++ String.intercalate " ," paths)]⟩ := by
    rw [h1, h2, h3]
  refine ⟨hall, ?_, ?_⟩
  · rw [hall]
    exact hec
  · rw [hall]
    rw [List.countP_append] at *
    rw [heffs0]
    rfl

/-- A handler with no global configuration and empty caches, validating via
locally discovered rule files. -/
def demoHandlerLocal : Handler := ⟨true, none, State.valid, [], []⟩

/-- An environment where rule-file discovery finds `found.yml` next to the
document but parsing it fails. -/
def demoEnvLocalParseError : Env :=
  ⟨fun _ => true, fun _ => some "found.yml", fun _ => Except.error "parse error",
   fun _ => "file", fun u => u, [demoDoc]⟩

theorem c5_witness :
    Handler.makeChangeSet demoEnvLocalParseError demoHandlerLocal demoDoc =
      ⟨none, { demoHandlerLocal with
                 validationCache := eraseA demoDoc.uri demoHandlerLocal.validationCache },
       [Effect.log ("rule file found: " ++ "found.yml")] ++
         [Effect.consoleError "parse error",
          Effect.showErrorMessage
            ("prh: `" ++ "parse error" ++ "` from " ++ String.intercalate " ," ["found.yml"])]⟩ ∧
    lookupA (String.intercalate "|" ["found.yml"])
      (Handler.makeChangeSet demoEnvLocalParseError demoHandlerLocal demoDoc).handler.engineCache
      = none ∧
    (Handler.makeChangeSet demoEnvLocalParseError demoHandlerLocal demoDoc).effects.countP
      Effect.isEngineInvoked = 0 :=
  c5_engine_construction_failure demoEnvLocalParseError demoHandlerLocal demoDoc
    ["found.yml"] [Effect.log ("rule file found: " ++ "found.yml")] "parse error"
    rfl rfl (fun _ hc => Option.noConfusion hc) rfl rfl rfl

/-! ### C9: unresolved rule set is a silent non-error -/

theorem resolveLocal_fst_none (env : Env) (doc : TextDocument)
    (hyp : env.uriScheme doc.uri ≠ "file" ∨
           env.getRuleFilePath (env.uriPath doc.uri) = none ∨
           env.getRuleFilePath (env.uriPath doc.uri) = some "") :
    (Handler.resolveLocal env doc).1 = none := by
  unfold Handler.resolveLocal
  by_cases hsch : env.uriScheme doc.uri ≠ "file"
  · rw [if_pos hsch]
  · rw [if_neg hsch]
    rcases hyp with hy | hy | hy
    · exact absurd hy hsch
    · rw [hy]
    · rw [hy]
      simp

/-- C9: for a document not covered by the global configuration, when local
rule-set resolution fails (not a file-scheme uri, or no rule file found for
the document's path), validation returns `none`, only console logs are
emitted (no user-visible message, no engine invocation), and the diagnostics
path publishes an empty diagnostic list for the document. -/
theorem c9_ruleset_unresolved (env : Env) (h : Handler) (doc : TextDocument)
    (he : h.enable = true) (hs : h.state = State.valid)
    (hm : ∀ c, lookupA doc.uri h.validationCache = some c → ¬c.version = doc.version)
    (hg : Handler.globalConfigured h = false)
    (hyp : env.uriScheme doc.uri ≠ "file" ∨
           env.getRuleFilePath (env.uriPath doc.uri) = none ∨
           env.getRuleFilePath (env.uriPath doc.uri) = some "") :
    ∃ effs, Handler.makeChangeSet env h doc =
        ⟨none, { h with validationCache := eraseA doc.uri h.validationCache }, effs⟩ ∧
      (∀ e ∈ effs, e.isLog = true) ∧
      Handler.validateAndSendDiagnostics env h doc =
        ({ h with validationCache := eraseA doc.uri h.validationCache },
         effs ++ [Effect.sendDiagnostics doc.uri []]) := by
  have hfail := resolveLocal_fst_none env doc hyp
  have h1 := mcs_miss env h doc he hs hm
  have h2 := uncached_local env
    { h with validationCache := eraseA doc.uri h.validationCache } doc hg hfail
  refine ⟨(Handler.resolveLocal env doc).2, by rw [h1, h2], resolveLocal_effects_log env doc, ?_⟩
  unfold Handler.validateAndSendDiagnostics Handler.makeDiagnostic
  rw [h1, h2]
  rfl

def demoEnvUntitled : Env :=
  ⟨fun _ => true, fun _ => none, fun _ => Except.ok demoEngine,
   fun _ => "untitled", fun u => u, [demoDoc]⟩

def demoHandlerNoConfig : Handler := ⟨true, none, State.valid, [], []⟩

theorem c9_witness :
    ∃ effs, Handler.makeChangeSet demoEnvUntitled demoHandlerNoConfig demoDoc =
        ⟨none, { demoHandlerNoConfig with
                   validationCache := eraseA demoDoc.uri demoHandlerNoConfig.validationCache },
         effs⟩ ∧
      (∀ e ∈ effs, e.isLog = true) ∧
      Handler.validateAndSendDiagnostics demoEnvUntitled demoHandlerNoConfig demoDoc =
        ({ demoHandlerNoConfig with
             validationCache := eraseA demoDoc.uri demoHandlerNoConfig.validationCache },
         effs ++ [Effect.sendDiagnostics demoDoc.uri []]) :=
  c9_ruleset_unresolved demoEnvUntitled demoHandlerNoConfig demoDoc rfl rfl
    (fun _ hc => Option.noConfusion hc) rfl (Or.inl (by decide))

/-! ### C10: the validation-cache entry invariant -/

/-- The engine the source would use for a rule-set identity: the cached one,
otherwise the one that construction would yield. -/
def engineAt (env : Env) (h : Handler) (paths : List String) : Option Engine :=
  match lookupA (String.intercalate "|" paths) h.engineCache with
  | some engine => some engine
  | none => (env.fromYAMLFilePaths paths).toOption

/-- Workhorse for the cache-miss validation run with a resolved rule path
list (either resolution mode) and an obtainable engine: the engine is invoked
exactly once, it ends up cached under the rule-set key, and the validation
cache afterwards holds exactly the current version paired with the engine's
change set when that is non-null, and no entry at all when the engine
returned null. -/
theorem mcs_engine_run (env : Env) (h : Handler) (doc : TextDocument)
    (paths : List String) (effs : List Effect) (engine : Engine)
    (he : h.enable = true) (hs : h.state = State.valid)
    (hm : ∀ c, lookupA doc.uri h.validationCache = some c → ¬ c.version = doc.version)
    (hres : Handler.resolvedPaths env h doc = (some paths, effs))
    (hacq : engineAt env h paths = some engine) :
    (Handler.makeChangeSet env h doc).effects.countP Effect.isEngineInvoked = 1 ∧
    lookupA (String.intercalate "|" paths)
      (Handler.makeChangeSet env h doc).handler.engineCache = some engine ∧
    (engine.makeChangeSet doc.uri doc.text = none →
      (Handler.makeChangeSet env h doc).result = none ∧
      lookupA doc.uri (Handler.makeChangeSet env h doc).handler.validationCache = none) ∧
    (∀ cs, engine.makeChangeSet doc.uri doc.text = some cs →
      (Handler.makeChangeSet env h doc).result = some cs ∧
      lookupA doc.uri (Handler.makeChangeSet env h doc).handler.validationCache =
        some ⟨doc.version, cs⟩) := by
  have h1 := mcs_miss env h doc he hs hm
  have hres2 : Handler.resolvedPaths env
      { h with validationCache := eraseA doc.uri h.validationCache } doc =
      (some paths, effs) :=
    (resolvedPaths_congr env _ h doc rfl).trans hres
  have h2 := uncached_withEngine env
    { h with validationCache := eraseA doc.uri h.validationCache } doc paths effs hres2
  have heffs0 : effs.countP Effect.isEngineInvoked = 0 := by
    refine List.countP_eq_zero.mpr ?_
    intro e he'
    have hl := resolvedPaths_effects_log env h doc e (by rw [hres]; exact he')
    simp [log_not_engineInvoked e hl]
  unfold engineAt at hacq
  cases hc : lookupA (String.intercalate "|" paths) h.engineCache with
  | some e =>
    rw [hc] at hacq
    simp at hacq
    rw [hacq] at hc
    have h3 := withEngine_cached env
      { h with validationCache := eraseA doc.uri h.validationCache } doc paths effs engine hc
    cases hrun : engine.makeChangeSet doc.uri doc.text with
    | none =>
      have h4 := runEngine_none
        { h with validationCache := eraseA doc.uri h.validationCache } doc engine effs hrun
      rw [h1, h2, h3, h4]
      refine ⟨?_, hc, fun _ => ⟨rfl, lookupA_eraseA_self doc.uri h.validationCache⟩,
        fun cs hcs => ?_⟩
      · rw [List.countP_append, heffs0]
        rfl
      · cases hcs
    | some cs0 =>
      have h4 := runEngine_some
        { h with validationCache := eraseA doc.uri h.validationCache } doc engine effs cs0 hrun
      rw [h1, h2, h3, h4]
      refine ⟨?_, hc, fun hn => ?_, fun cs hcs => ?_⟩
      · rw [List.countP_append, heffs0]
        rfl
      · cases hn
      · injection hcs with hcs
        subst hcs
        exact ⟨rfl, lookupA_insertA_self doc.uri _ _⟩
  | none =>
    rw [hc] at hacq
    cases hfy : env.fromYAMLFilePaths paths with
    | error msg =>
      rw [hfy] at hacq
      cases hacq
    | ok e =>
      rw [hfy] at hacq
      simp [Except.toOption] at hacq
      rw [hacq] at hfy
      have h3 := withEngine_ok env
        { h with validationCache := eraseA doc.uri h.validationCache } doc paths effs engine hc hfy
      cases hrun : engine.makeChangeSet doc.uri doc.text with
      | none =>
        have h4 := runEngine_none
          { h with validationCache := eraseA doc.uri h.validationCache,
                   engineCache := insertA (String.intercalate "|" paths) engine h.engineCache }
          doc engine effs hrun
        rw [h1, h2, h3]
        refine ⟨?_, ?_, fun _ => ⟨?_, ?_⟩, fun cs hcs => ?_⟩
        · rw [h4, List.countP_append, heffs0]
          rfl
        · rw [h4]
          exact lookupA_insertA_self _ _ _
        · rw [h4]
        · rw [h4]
          exact lookupA_eraseA_self doc.uri h.validationCache
        · cases hcs
      | some cs0 =>
        have h4 := runEngine_some
          { h with validationCache := eraseA doc.uri h.validationCache,
                   engineCache := insertA (String.intercalate "|" paths) engine h.engineCache }
          doc engine effs cs0 hrun
        rw [h1, h2, h3]
        refine ⟨?_, ?_, fun hn => ?_, fun cs hcs => ?_⟩
        · rw [h4, List.countP_append, heffs0]
          rfl
        · rw [h4]
          exact lookupA_insertA_self _ _ _
        · cases hn
        · injection hcs with hcs
          subst hcs
          rw [h4]
          exact ⟨rfl, lookupA_insertA_self doc.uri _ _⟩

/-- C10: whatever way the rule path list was resolved (globally configured or
discovered relative to the document), a validation-cache entry is stored only
when the engine returns a non-null change set, and then it records the
document's version at invocation time together with that change set; when the
engine returns null nothing is cached, so validating the same document at the
same version invokes the engine again (once more). -/
theorem c10_validation_cache_entry_invariant (env : Env) (h : Handler) (doc : TextDocument)
    (paths : List String) (effs : List Effect) (engine : Engine)
    (he : h.enable = true) (hs : h.state = State.valid)
    (hm : ∀ c, lookupA doc.uri h.validationCache = some c → ¬ c.version = doc.version)
    (hres : Handler.resolvedPaths env h doc = (some paths, effs))
    (hacq : engineAt env h paths = some engine) :
    (Handler.makeChangeSet env h doc).effects.countP Effect.isEngineInvoked = 1 ∧
    (∀ cs, engine.makeChangeSet doc.uri doc.text = some cs →
      (Handler.makeChangeSet env h doc).result = some cs ∧
      lookupA doc.uri (Handler.makeChangeSet env h doc).handler.validationCache =
        some ⟨doc.version, cs⟩) ∧
    (engine.makeChangeSet doc.uri doc.text = none →
      (Handler.makeChangeSet env h doc).result = none ∧
      lookupA doc.uri (Handler.makeChangeSet env h doc).handler.validationCache = none ∧
      (Handler.makeChangeSet env (Handler.makeChangeSet env h doc).handler doc).effects.countP
        Effect.isEngineInvoked = 1) := by
  obtain ⟨hcount, hcache, hnone, hsome⟩ :=
    mcs_engine_run env h doc paths effs engine he hs hm hres hacq
  refine ⟨hcount, hsome, fun hn => ?_⟩
  obtain ⟨hres1, hvc⟩ := hnone hn
  obtain ⟨pe, ps, pc⟩ := mcs_preserves env h doc
  have hacq2 : engineAt env (Handler.makeChangeSet env h doc).handler paths = some engine := by
    unfold engineAt
    rw [hcache]
  have hresolved2 : Handler.resolvedPaths env
      (Handler.makeChangeSet env h doc).handler doc = (some paths, effs) :=
    (resolvedPaths_congr env _ h doc pc).trans hres
  have hm2 : ∀ c, lookupA doc.uri
      (Handler.makeChangeSet env h doc).handler.validationCache = some c →
      ¬ c.version = doc.version := by
    intro c hcc
    rw [hvc] at hcc
    cases hcc
  obtain ⟨hcount2, _, _, _⟩ := mcs_engine_run env (Handler.makeChangeSet env h doc).handler doc
    paths effs engine (by rw [pe, he]) (by rw [ps, hs]) hm2 hresolved2 hacq2
  exact ⟨hres1, hvc, hcount2⟩

/-- An engine that never produces corrections. -/
def demoNullEngine : Engine := ⟨fun _ _ => none⟩

def demoEnvNull : Env :=
  ⟨fun _ => true, fun _ => none, fun _ => Except.ok demoNullEngine,
   fun _ => "file", fun u => u, [demoDoc]⟩

def demoHandlerNull : Handler :=
  ⟨true, some ["prh.yml"], State.valid, [("prh.yml", demoNullEngine)], []⟩

theorem c10_witness :
    (Handler.makeChangeSet demoEnvNull demoHandlerNull demoDoc).effects.countP
      Effect.isEngineInvoked = 1 ∧
    (Handler.makeChangeSet demoEnvNull demoHandlerNull demoDoc).result = none ∧
    lookupA demoDoc.uri
      (Handler.makeChangeSet demoEnvNull demoHandlerNull demoDoc).handler.validationCache
      = none ∧
    (Handler.makeChangeSet demoEnvNull
        (Handler.makeChangeSet demoEnvNull demoHandlerNull demoDoc).handler
        demoDoc).effects.countP Effect.isEngineInvoked = 1 := by
  have t := c10_validation_cache_entry_invariant demoEnvNull demoHandlerNull demoDoc
    ["prh.yml"] [] demoNullEngine rfl rfl (fun _ hc => Option.noConfusion hc) rfl rfl
  exact ⟨t.1, t.2.2 rfl⟩

/-! ### C6: applyAllQuickFixes submits one batched edit at the current version -/

theorem log_not_applyEdit (e : Effect) (hl : e.isLog = true) : e.isApplyEdit = false := by
  cases e <;> simp_all [Effect.isLog, Effect.isApplyEdit]

theorem runEngine_no_applyEdit (h : Handler) (doc : TextDocument) (engine : Engine)
    (effs : List Effect) (hin : ∀ e ∈ effs, e.isApplyEdit = false) :
    ∀ e ∈ (Handler.runEngine h doc engine effs).effects, e.isApplyEdit = false := by
  unfold Handler.runEngine
  cases engine.makeChangeSet doc.uri doc.text <;>
  · intro e he
    simp at he
    rcases he with he | he
    · exact hin e he
    · subst he
      rfl

theorem withEngine_no_applyEdit (env : Env) (h : Handler) (doc : TextDocument)
    (configPaths : List String) (effs : List Effect)
    (hin : ∀ e ∈ effs, e.isApplyEdit = false) :
    ∀ e ∈ (Handler.withEngine env h doc configPaths effs).effects, e.isApplyEdit = false := by
  unfold Handler.withEngine
  cases lookupA (String.intercalate "|" configPaths) h.engineCache with
  | some engine => exact runEngine_no_applyEdit h doc engine effs hin
  | none =>
    cases env.fromYAMLFilePaths configPaths with
    | error msg =>
      intro e he
      simp at he
      rcases he with he | he | he
      · exact hin e he
      · subst he
        rfl
      · subst he
        rfl
    | ok engine => exact runEngine_no_applyEdit _ doc engine effs hin

theorem uncached_no_applyEdit (env : Env) (h : Handler) (doc : TextDocument) :
    ∀ e ∈ (Handler.makeChangeSetUncached env h doc).effects, e.isApplyEdit = false := by
  by_cases hg : Handler.globalConfigured h = true
  · unfold Handler.globalConfigured at hg
    cases hp : h.configPaths with
    | none =>
      rw [hp] at hg
      cases hg
    | some paths =>
      rw [hp] at hg
      simp at hg
      rw [uncached_global env h doc paths hp (by simpa using hg)]
      exact withEngine_no_applyEdit env h doc paths [] (by simp)
  · have hg' : Handler.globalConfigured h = false := by simpa using hg
    rw [uncached_resolveLocal env h doc hg']
    rcases hres : Handler.resolveLocal env doc with ⟨a, b⟩
    have hb : ∀ e ∈ b, e.isApplyEdit = false := by
      intro e he
      refine log_not_applyEdit e (resolveLocal_effects_log env doc e ?_)
      rw [hres]
      exact he
    cases a with
    | none => exact hb
    | some cp => exact withEngine_no_applyEdit env h doc cp b hb

theorem mcs_no_applyEdit (env : Env) (h : Handler) (doc : TextDocument) :
    ∀ e ∈ (Handler.makeChangeSet env h doc).effects, e.isApplyEdit = false := by
  unfold Handler.makeChangeSet
  split
  · simp
  · split
    · split
      · simp
      · exact uncached_no_applyEdit env _ doc
    · exact uncached_no_applyEdit env _ doc

/-- C6: `applyAllQuickFixes` re-validates the live document (fetched by uri,
not taken from a code-action payload); with no change set nothing is
submitted, and with a change set every diff is mapped in change-set order to
an edit of exactly one batched `applyEdit` stamped with the document's
current version; when the engine's diffs are ordered by ascending start
offset (the engine contract), so are the submitted edits' source offsets. -/
theorem c6_apply_all_quickfixes (env : Env) (h : Handler) (uri : String) (doc : TextDocument)
    (hne : ¬uri = "") (hdoc : env.docGet uri = some doc) :
    ((Handler.makeChangeSet env h doc).result = none →
      Handler.executeApplyAllQuickFixes env h (some uri) =
        some ((Handler.makeChangeSet env h doc).handler,
              (Handler.makeChangeSet env h doc).effects) ∧
      ∀ e ∈ (Handler.makeChangeSet env h doc).effects, e.isApplyEdit = false) ∧
    (∀ cs, (Handler.makeChangeSet env h doc).result = some cs →
      Handler.executeApplyAllQuickFixes env h (some uri) =
        some ((Handler.makeChangeSet env h doc).handler,
              (Handler.makeChangeSet env h doc).effects ++
                [Effect.applyEdit doc.uri doc.version
                  (cs.diffs.map (Handler.getTextEditFromDiff doc))]) ∧
      ((Handler.makeChangeSet env h doc).effects ++
        [Effect.applyEdit doc.uri doc.version
          (cs.diffs.map (Handler.getTextEditFromDiff doc))]).countP Effect.isApplyEdit = 1 ∧
      (List.Pairwise (fun a b => a.index ≤ b.index) cs.diffs →
        List.Pairwise (· ≤ ·) (cs.diffs.map Diff.index))) := by
  constructor
  · intro hres
    refine ⟨?_, mcs_no_applyEdit env h doc⟩
    simp only [Handler.executeApplyAllQuickFixes]
    rw [if_neg hne, hdoc]
    dsimp only
    rw [hres]
  · intro cs hres
    refine ⟨?_, ?_, fun hsorted => List.pairwise_map.mpr hsorted⟩
    · simp only [Handler.executeApplyAllQuickFixes]
      rw [if_neg hne, hdoc]
      dsimp only
      rw [hres]
    · have h0 : (Handler.makeChangeSet env h doc).effects.countP Effect.isApplyEdit = 0 :=
        List.countP_eq_zero.mpr (fun e he => by simp [mcs_no_applyEdit env h doc e he])
      rw [List.countP_append, h0]
      rfl

theorem c6_witness :
    Handler.executeApplyAllQuickFixes demoEnv demoHandler (some "file:///a.md") =
      some ((Handler.makeChangeSet demoEnv demoHandler demoDoc).handler,
            (Handler.makeChangeSet demoEnv demoHandler demoDoc).effects ++
              [Effect.applyEdit demoDoc.uri demoDoc.version
                (demoChangeSet.diffs.map (Handler.getTextEditFromDiff demoDoc))]) ∧
    ((Handler.makeChangeSet demoEnv demoHandler demoDoc).effects ++
      [Effect.applyEdit demoDoc.uri demoDoc.version
        (demoChangeSet.diffs.map (Handler.getTextEditFromDiff demoDoc))]).countP
      Effect.isApplyEdit = 1 ∧
    (List.Pairwise (fun a b => a.index ≤ b.index) demoChangeSet.diffs →
      List.Pairwise (· ≤ ·) (demoChangeSet.diffs.map Diff.index)) :=
  (c6_apply_all_quickfixes demoEnv demoHandler "file:///a.md" demoDoc
    (by decide) rfl).2 demoChangeSet rfl

/-! ### C7: code actions are exactly the exact-span corrections -/

/-- C7: `onCodeAction` on an open document returns the empty list when
validation yields `none`; otherwise it returns exactly one `replace` command
per diff whose `[index, tailIndex)` equals the requested range converted to
offsets, each stamped with the document's identity, its version at filter
time, and the replacement text (`??` placeholder when no suggestion exists);
every diff that survives the filter matches the requested span exactly, so a
partially overlapping correction yields no action. -/
theorem c7_code_action_exact_match (env : Env) (h : Handler) (params : CodeActionParams)
    (doc : TextDocument) (hdoc : env.docGet params.uri = some doc) :
    ((Handler.makeChangeSet env h doc).result = none →
      Handler.onCodeAction env h params =
        some ([], (Handler.makeChangeSet env h doc).handler,
              (Handler.makeChangeSet env h doc).effects)) ∧
    (∀ cs, (Handler.makeChangeSet env h doc).result = some cs →
      Handler.onCodeAction env h params =
        some (((cs.diffs.filter (fun diff =>
                  diff.index = doc.offsetAt params.range.start ∧
                  diff.tailIndex = doc.offsetAt params.range.endPos)).map
                (fun diff =>
                  { title := "→ " ++ jsOr diff.newText "??",
                    command := "replace",
                    arguments := [{ uri := doc.uri, version := doc.version,
                                    textEdit := { range := params.range,
                                                  newText := jsOr diff.newText "??" } }] })),
              (Handler.makeChangeSet env h doc).handler,
              (Handler.makeChangeSet env h doc).effects) ∧
      ∀ d ∈ cs.diffs.filter (fun diff =>
          diff.index = doc.offsetAt params.range.start ∧
          diff.tailIndex = doc.offsetAt params.range.endPos),
        d.index = doc.offsetAt params.range.start ∧
        d.tailIndex = doc.offsetAt params.range.endPos) := by
  constructor
  · intro hres
    simp only [Handler.onCodeAction]
    rw [hdoc]
    dsimp only
    rw [hres]
  · intro cs hres
    constructor
    · simp only [Handler.onCodeAction]
      rw [hdoc]
      dsimp only
      rw [hres]
    · intro d hd
      simpa using (List.mem_filter.mp hd).2

def demoCodeActionParams : CodeActionParams :=
  ⟨"file:///a.md", ⟨⟨0, 0⟩, ⟨0, 3⟩⟩⟩

theorem c7_witness :
    Handler.onCodeAction demoEnv demoHandler demoCodeActionParams =
      some (((demoChangeSet.diffs.filter (fun diff =>
                diff.index = demoDoc.offsetAt demoCodeActionParams.range.start ∧
                diff.tailIndex = demoDoc.offsetAt demoCodeActionParams.range.endPos)).map
              (fun diff =>
                { title := "→ " ++ jsOr diff.newText "??",
                  command := "replace",
                  arguments := [{ uri := demoDoc.uri, version := demoDoc.version,
                                  textEdit := { range := demoCodeActionParams.range,
                                                newText := jsOr diff.newText "??" } }] })),
            (Handler.makeChangeSet demoEnv demoHandler demoDoc).handler,
            (Handler.makeChangeSet demoEnv demoHandler demoDoc).effects) ∧
    ∀ d ∈ demoChangeSet.diffs.filter (fun diff =>
        diff.index = demoDoc.offsetAt demoCodeActionParams.range.start ∧
        diff.tailIndex = demoDoc.offsetAt demoCodeActionParams.range.endPos),
      d.index = demoDoc.offsetAt demoCodeActionParams.range.start ∧
      d.tailIndex = demoDoc.offsetAt demoCodeActionParams.range.endPos :=
  (c7_code_action_exact_match demoEnv demoHandler demoCodeActionParams demoDoc rfl).2
    demoChangeSet rfl

/-! ### C8: checkConfig on missing paths (warning only on the transition
into the invalid state) -/

theorem checkConfigLoop_all_exist (env : Env) (h : Handler) (paths : List String)
    (effs : List Effect) (hall : ∀ p ∈ paths, env.existsSync p = true) :
    Handler.checkConfigLoop env h paths effs = ({ h with state := State.valid }, effs) := by
  induction paths generalizing effs with
  | nil => rfl
  | cons p rest ih =>
    unfold Handler.checkConfigLoop
    rw [if_pos (hall p (by simp))]
    exact ih effs (fun q hq => hall q (by simp [hq]))

theorem checkConfigLoop_missing (env : Env) (h : Handler) (paths : List String)
    (effs : List Effect) (hmiss : ¬∀ p ∈ paths, env.existsSync p = true) :
    ∃ p ∈ paths, env.existsSync p = false ∧
      Handler.checkConfigLoop env h paths effs =
        ({ h with state := State.invalid },
         (if h.state ≠ State.invalid then
            (effs ++ [Effect.log ("rule file not exists: " ++ p)]) ++
              [Effect.showWarningMessage
                ("prh: 指定された設定ファイルが見つかりません " ++ p)]
          else effs ++ [Effect.log ("rule file not exists: " ++ p)])
         ++ env.documents.map (fun d => Effect.sendDiagnostics d.uri [])) := by
  induction paths generalizing effs with
  | nil => exact absurd (by simp) hmiss
  | cons p rest ih =>
    by_cases hp : env.existsSync p = true
    · have hmiss' : ¬∀ q ∈ rest, env.existsSync q = true := by
        intro hq
        refine hmiss ?_
        intro q hq'
        rcases List.mem_cons.mp hq' with rfl | hq''
        · exact hp
        · exact hq q hq''
      obtain ⟨q, hq, hqf, heq⟩ := ih effs hmiss'
      refine ⟨q, by simp [hq], hqf, ?_⟩
      unfold Handler.checkConfigLoop
      rw [if_pos hp]
      exact heq
    · have hp' : env.existsSync p = false := by simpa using hp
      refine ⟨p, by simp, hp', ?_⟩
      unfold Handler.checkConfigLoop
      rw [if_neg hp]

/-- C8 counterexample: with the config state already invalid and the single
configured rule path `rules.yml` missing, `checkConfig` emits no
`showWarningMessage` at all — refuting the claim that a missing path always
surfaces a user-visible warning. -/
def demoEnvNoFiles : Env :=
  ⟨fun _ => false, fun _ => none, fun _ => Except.ok demoEngine,
   fun _ => "file", fun u => u, []⟩

def demoHandlerInvalid : Handler :=
  ⟨true, some ["rules.yml"], State.invalid, [], []⟩

theorem c8_counterexample :
    demoEnvNoFiles.existsSync "rules.yml" = false ∧
    demoHandlerInvalid.configPaths = some ["rules.yml"] ∧
    (Handler.checkConfig demoEnvNoFiles demoHandlerInvalid).1.state = State.invalid ∧
    (Handler.checkConfig demoEnvNoFiles demoHandlerInvalid).2.countP
      Effect.isShowWarning = 0 :=
  ⟨rfl, rfl, rfl, rfl⟩

/-- C8 (amended): `checkConfig` verifies the configured rule-file paths in
order; if all exist it sets the state to valid; if any is missing it sets the
state to invalid and publishes an empty diagnostic list for every open
document, and it surfaces exactly one warning identifying a missing path when
the state was not already invalid — when the state was already invalid, no
new warning is emitted. -/
theorem c8_check_paths_amended (env : Env) (h : Handler) :
    ((∀ p ∈ h.configPaths.getD [], env.existsSync p = true) →
      Handler.checkConfig env h =
        ({ h with configPaths := some (h.configPaths.getD []), state := State.valid,
                  engineCache := [], validationCache := [] },
         [Effect.log ("loadConfig: " ++
            (if String.intercalate ", " (h.configPaths.getD []) = "" then "implicit"
             else String.intercalate ", " (h.configPaths.getD [])))])) ∧
    ((¬∀ p ∈ h.configPaths.getD [], env.existsSync p = true) →
      (Handler.checkConfig env h).1.state = State.invalid ∧
      (∀ d ∈ env.documents,
        Effect.sendDiagnostics d.uri [] ∈ (Handler.checkConfig env h).2) ∧
      (Handler.checkConfig env h).2.countP Effect.isShowWarning =
        (if h.state ≠ State.invalid then 1 else 0) ∧
      (h.state ≠ State.invalid →
        ∃ p ∈ h.configPaths.getD [], env.existsSync p = false ∧
          Effect.showWarningMessage ("prh: 指定された設定ファイルが見つかりません " ++ p) ∈
            (Handler.checkConfig env h).2)) := by
  constructor
  · intro hall
    exact checkConfigLoop_all_exist env
      (Handler.invalidateCache { h with configPaths := some (h.configPaths.getD []) })
      (h.configPaths.getD [])
      [Effect.log ("loadConfig: " ++
        (if String.intercalate ", " (h.configPaths.getD []) = "" then "implicit"
         else String.intercalate ", " (h.configPaths.getD [])))] hall
  · intro hmiss
    obtain ⟨p, hp, hpf, heq⟩ := checkConfigLoop_missing env
      (Handler.invalidateCache { h with configPaths := some (h.configPaths.getD []) })
      (h.configPaths.getD [])
      [Effect.log ("loadConfig: " ++
        (if String.intercalate ", " (h.configPaths.getD []) = "" then "implicit"
         else String.intercalate ", " (h.configPaths.getD [])))] hmiss
    have hcc : Handler.checkConfig env h =
        ({ Handler.invalidateCache { h with configPaths := some (h.configPaths.getD []) }
             with state := State.invalid },
         (if h.state ≠ State.invalid then
            ([Effect.log ("loadConfig: " ++
                (if String.intercalate ", " (h.configPaths.getD []) = "" then "implicit"
                 else String.intercalate ", " (h.configPaths.getD []))),
              Effect.log ("rule file not exists: " ++ p)]) ++
              [Effect.showWarningMessage
                ("prh: 指定された設定ファイルが見つかりません " ++ p)]
          else [Effect.log ("loadConfig: " ++
                  (if String.intercalate ", " (h.configPaths.getD []) = "" then "implicit"
                   else String.intercalate ", " (h.configPaths.getD []))),
                Effect.log ("rule file not exists: " ++ p)])
         ++ env.documents.map (fun d => Effect.sendDiagnostics d.uri [])) := by
      unfold Handler.checkConfig
      exact heq
    rw [hcc]
    have hdocs0 : (env.documents.map
        (fun d => Effect.sendDiagnostics d.uri [])).countP Effect.isShowWarning = 0 := by
      refine List.countP_eq_zero.mpr ?_
      intro e he
      simp at he
      obtain ⟨d, _, rfl⟩ := he
      simp [Effect.isShowWarning]
    refine ⟨rfl, ?_, ?_, ?_⟩
    · intro d hd
      exact List.mem_append_right _ (List.mem_map_of_mem _ hd)
    · by_cases hst : h.state ≠ State.invalid
      · rw [if_pos hst, if_pos hst, List.countP_append, List.countP_append, hdocs0]
        rfl
      · rw [if_neg hst, if_neg hst, List.countP_append, hdocs0]
        rfl
    · intro hst
      refine ⟨p, hp, hpf, ?_⟩
      rw [if_pos hst]
      exact List.mem_append_left _ (List.mem_append_right _ (by simp))

/-- A handler with a configured rule path and empty caches, in the valid
state. -/
def demoHandlerNoEngine : Handler :=
  ⟨true, some ["bad.yml"], State.valid, [], []⟩

theorem c8_witness :
    (Handler.checkConfig demoEnvNoFiles demoHandlerNoEngine).1.state = State.invalid ∧
    (∀ d ∈ demoEnvNoFiles.documents,
      Effect.sendDiagnostics d.uri [] ∈
        (Handler.checkConfig demoEnvNoFiles demoHandlerNoEngine).2) ∧
    (Handler.checkConfig demoEnvNoFiles demoHandlerNoEngine).2.countP Effect.isShowWarning =
      (if demoHandlerNoEngine.state ≠ State.invalid then 1 else 0) ∧
    (demoHandlerNoEngine.state ≠ State.invalid →
      ∃ p ∈ demoHandlerNoEngine.configPaths.getD [],
        demoEnvNoFiles.existsSync p = false ∧
        Effect.showWarningMessage ("prh: 指定された設定ファイルが見つかりません " ++ p) ∈
          (Handler.checkConfig demoEnvNoFiles demoHandlerNoEngine).2) :=
  (c8_check_paths_amended demoEnvNoFiles demoHandlerNoEngine).2 (by decide)

/-- C1 counterexample: with an engine that returns a null change set, nothing
is cached, so calling `makeChangeSet` twice on the same unchanged document
invokes the engine in the second call as well (one invocation in each call,
two in total) — refuting the unrestricted claim that the second call never
invokes the engine again. -/
theorem c1_counterexample :
    (Handler.makeChangeSet demoEnvNull demoHandlerNull demoDoc).result = none ∧
    (Handler.makeChangeSet demoEnvNull demoHandlerNull demoDoc).effects.countP
      Effect.isEngineInvoked = 1 ∧
    (Handler.makeChangeSet demoEnvNull
        (Handler.makeChangeSet demoEnvNull demoHandlerNull demoDoc).handler
        demoDoc).effects.countP Effect.isEngineInvoked = 1 :=
  ⟨rfl, rfl, rfl⟩
